import Mathlib

/-
Verification development for the `clea` declarative command-line binding
framework (src/python-runtime/Lib/site-packages/clea/).

The Python modules `params.py`, `parser.py`, `wrappers.py`, `runner.py` are
shallowly embedded below:

* Mutable `Parameter` objects are modelled as values in an explicit heap
  (`store : List Param`, indexed by allocation order); a Python dict keyed
  by flag strings is an insertion-ordered association list mapping flags to
  heap indices.  Aliasing (the same `Parameter` registered under its short
  and long flag, or a `ChoiceByFlag` registered under several flags) is
  captured by two keys mapping to the same index, and mutation of a
  parameter (e.g. `StringList.container.append`) is an update of the heap
  cell, visible through every alias.
* `CommandParser.copy` performs `deque(self._args)` and
  `self._kwargs.copy()` — both shallow: the maps are duplicated but the
  `Parameter` objects are shared.  `Cmd.invoke` below therefore runs the
  parser on a fresh copy of the index maps while threading the (shared)
  heap through to the returned command state.
* Raised exceptions become `Except` errors.  `ParseErr.unpack` models the
  Python `ValueError` raised by `flag, value = arg.split("=")` when the
  token holds two or more `=` characters; it is not a `CleaException`
  (`ParseErr.isClea = false`), so the runner's `except CleaException` does
  not convert it.
-/

namespace Clea

/-! ### Python string primitives used by the source -/

/-- Python `arg.startswith("-")`. -/
def pyStartsWithDash (t : String) : Bool :=
  match t.data with
  | [] => false
  | c :: _ => c = '-'

/-- Helper for `pySplitEq`: split a character list at every `=`. -/
def splitEqAux : List Char → List Char → List String
  | [], acc => [String.mk acc.reverse]
  | c :: cs, acc =>
    if c = '=' then String.mk acc.reverse :: splitEqAux cs []
    else splitEqAux cs (c :: acc)

/-- Python `arg.split("=")` (single-character separator, empties kept). -/
def pySplitEq (t : String) : List String :=
  splitEqAux t.data []

/-- Python `s.upper()` for the ASCII names used by the source. -/
def pyUpper (s : String) : String :=
  String.mk (s.data.map Char.toUpper)

/-- Python `s.lower()` for the ASCII names used by the source. -/
def pyLower (s : String) : String :=
  String.mk (s.data.map Char.toLower)

/-- Python `s.replace("_", "-")` (single-character pattern). -/
def underscoreToHyphen (s : String) : String :=
  String.mk (s.data.map fun c => if c = '_' then '-' else c)

/-- Decimal digit run to a number; `none` on empty or non-digit input. -/
def digitsToNat : List Char → Option Nat
  | [] => none
  | cs =>
    if cs.all Char.isDigit then
      some (cs.foldl (fun n c => n * 10 + (c.toNat - '0'.toNat)) 0)
    else none

/-- Python `int(value)` on plain decimal literals with an optional sign
(whitespace stripping and underscore grouping are not exercised here). -/
def pyInt (s : String) : Option Int :=
  match s.data with
  | '-' :: cs => (digitsToNat cs).map fun n => -(n : Int)
  | '+' :: cs => (digitsToNat cs).map fun n => (n : Int)
  | cs => (digitsToNat cs).map fun n => (n : Int)

/-! ### Typed values and the failure family (`exceptions.py`) -/

/-- A typed argument value; `vnone` models the Python `None` default and
`ctx` the injected runtime-context object. -/
inductive Value where
  | str (s : String)
  | int (n : Int)
  | bool (b : Bool)
  | strList (xs : List String)
  | enumv (member : String)
  | ctx
  | vnone
  deriving DecidableEq, Repr

/-- Python truthiness negation `not value`, used by `Boolean.parse`. -/
def pyNot : Value → Bool
  | .bool b => !b
  | .str s => s == ""
  | .int n => n == 0
  | .strList xs => xs.isEmpty
  | .enumv _ => false
  | .ctx => false
  | .vnone => true

/-- Errors raised during parsing.  The first three are the `CleaException`
subclasses of `exceptions.py` (all raised with exit code 1); `unpack` is
the plain Python `ValueError` from tuple unpacking of `arg.split("=")`. -/
inductive ParseErr where
  | parsingError (msg : String)
  | argumentsMissing (msg : String)
  | extraArgument (msg : String)
  | unpack
  deriving DecidableEq, Repr

/-- Whether the raised error belongs to the `CleaException` family. -/
def ParseErr.isClea : ParseErr → Bool
  | .unpack => false
  | _ => true

/-- The `message` attribute carried by a `CleaException`. -/
def ParseErr.message : ParseErr → String
  | .parsingError m => m
  | .argumentsMissing m => m
  | .extraArgument m => m
  | .unpack => "too many values to unpack (expected 2)"

/-! ### Parameter model (`params.py`) -/

/-- The parameter variants of `params.py` modelled here (File/Directory
touch the filesystem and Float is floating point; no claim needs them). -/
inductive PKind where
  | string
  | integer
  | boolean
  | stringList
  | choice
  | choiceByFlag
  | context
  | version
  deriving DecidableEq, Repr

/-- One `Parameter` object: its identity fields plus the mutable state
(`container` for `StringList`, `default` which `ChoiceByFlag.parse` and
`ContextParameter.set` overwrite). `flagToValue` is the flag-to-member
table built by `ChoiceByFlag.__init__`; `choices` the (name, value) pairs
of a `Choice` enum. -/
structure Param where
  kind : PKind
  name : String := ""
  shortFlag : Option String := none
  longFlag : Option String := none
  default : Value := .vnone
  container : List String := []
  flagToValue : List (String × String) := []
  choices : List (String × String) := []
  deriving DecidableEq, Repr

/-- `Parameter.is_container` is a class attribute: true only for
`StringList`. -/
def Param.isContainer (p : Param) : Bool :=
  p.kind == .stringList

/-- `self._type.__name__` per variant. -/
def PKind.typeName : PKind → String
  | .string => "str"
  | .integer => "int"
  | .boolean => "bool"
  | .stringList => "list"
  | .choice => "Enum"
  | .choiceByFlag => "Enum"
  | .context => "Context"
  | .version => "str"

/-- `Parameter.metavar`. -/
def Param.metavar (p : Param) : String :=
  "<" ++ pyUpper p.name ++ " type=" ++ p.kind.typeName ++ ">"

/-- Placeholder for reads of an absent heap cell (unreachable in states
built by `ParserState.add`, where every registered index is allocated). -/
def dummyParam : Param := { kind := .string }

/-- `Parameter.create_long_flag`: derive `--name` with underscores
hyphenated. -/
def Param.createLongFlagName (p : Param) : String :=
  "--" ++ underscoreToHyphen p.name

/-- `Parameter.parse` and its overrides, returning the typed value and the
post-call parameter object (mutated for `StringList` and `ChoiceByFlag`). -/
def Param.parseValue (p : Param) (v : String) : Except ParseErr (Value × Param) :=
  match p.kind with
  | .string => .ok (.str v, p)
  | .version => .ok (.str v, p)
  | .context => .error .unpack
  | .integer =>
    match pyInt v with
    | some n => .ok (.int n, p)
    | none =>
      .error (.parsingError
        ("Error parsing value for " ++ p.metavar ++ "; Provided value=" ++ v
          ++ "; Expected type=int"))
  | .boolean => .ok (.bool (pyNot p.default), p)
  | .stringList =>
    let c := p.container ++ [v]
    .ok (.strList c, { p with container := c })
  | .choice =>
    match p.choices.find? (fun nv => nv.2 == v) with
    | some nv => .ok (.enumv nv.1, p)
    | none =>
      .error (.parsingError
        ("Error parsing value for " ++ p.metavar ++ "; Provided value=" ++ v
          ++ "; Expected value from "
          ++ String.intercalate ", " (p.choices.map fun nv => nv.2)))
  | .choiceByFlag =>
    match p.flagToValue.find? (fun fv => fv.1 == v) with
    | some fv => .ok (.enumv fv.2, { p with default := .enumv fv.2 })
    | none =>
      .error (.parsingError
        ("Error parsing value for " ++ p.metavar ++ "; Provided value=" ++ v
          ++ "; Expected value from "
          ++ String.intercalate ", " (p.flagToValue.map fun fv => fv.2)))

/-! Parameter constructors mirroring the `__init__` methods. -/

/-- `String(...)` with a name already bound. -/
def mkString (nm : String) (sf lf : Option String) (dflt : Value := .vnone) : Param :=
  { kind := .string, name := nm, shortFlag := sf, longFlag := lf, default := dflt }

/-- A positional `String` parameter (no flags, no default). -/
def mkPositionalString (nm : String) : Param :=
  { kind := .string, name := nm }

/-- `Boolean(...)`: the default is always a `bool` (`False` unless given). -/
def mkBoolean (nm : String) (sf lf : Option String) (d : Bool) : Param :=
  { kind := .boolean, name := nm, shortFlag := sf, longFlag := lf, default := .bool d }

/-- `StringList(...)`: `default or []` and an empty accumulator. -/
def mkStringList (nm : String) (sf lf : Option String)
    (dflt : List String := []) : Param :=
  { kind := .stringList, name := nm, shortFlag := sf, longFlag := lf,
    default := .strList dflt, container := [] }

/-- `ChoiceByFlag(enum, ...)`: one long flag per member, derived from the
member name lower-cased with underscores hyphenated, in enum order. -/
def mkChoiceByFlag (nm : String) (members : List String)
    (dflt : Value := .vnone) : Param :=
  { kind := .choiceByFlag, name := nm, default := dflt,
    flagToValue := members.map fun m => ("--" ++ underscoreToHyphen (pyLower m), m) }

/-! ### Python dict as an insertion-ordered association list -/

/-- `d.get(k)` / `d[k]`. -/
def dictGet {α : Type} (k : String) (d : List (String × α)) : Option α :=
  (d.find? fun kv => kv.1 == k).map fun kv => kv.2

/-- `d.pop(k, None)`'s removal effect: drop the binding of `k`. -/
def dictRemove {α : Type} (k : String) (d : List (String × α)) : List (String × α) :=
  d.filter fun kv => kv.1 != k

/-- `d[k] = v`: update in place when present, else append. -/
def dictInsert {α : Type} (k : String) (v : α) (d : List (String × α)) :
    List (String × α) :=
  if (d.find? fun kv => kv.1 == k).isSome then
    d.map fun kv => if kv.1 == k then (k, v) else kv
  else d ++ [(k, v)]

/-! ### Parser state (`BaseParser`) -/

/-- `BaseParser`'s state: the heap of parameter objects, the positional
deque `_args` and the flag table `_kwargs` (both holding heap indices). -/
structure ParserState where
  store : List Param
  argsIds : List Nat
  kwargs : List (String × Nat)
  deriving DecidableEq, Repr

/-- `BaseParser.__init__`. -/
def ParserState.empty : ParserState :=
  { store := [], argsIds := [], kwargs := [] }

/-- `BaseParser.add`: `ChoiceByFlag` registers every derived flag;
a parameter with no default and no flags is positional; otherwise a
missing long flag is derived from the name when a default exists, and the
parameter is registered under its long and short flags. -/
def ParserState.add (s : ParserState) (p : Param) : ParserState :=
  let pid := s.store.length
  if p.kind == .choiceByFlag then
    { store := s.store ++ [p], argsIds := s.argsIds,
      kwargs := p.flagToValue.foldl (fun d fv => dictInsert fv.1 pid d) s.kwargs }
  else if p.default == .vnone && p.shortFlag == none && p.longFlag == none then
    { store := s.store ++ [p], argsIds := s.argsIds ++ [pid], kwargs := s.kwargs }
  else
    let pd :=
      if p.default != .vnone && p.longFlag == none then
        let lf := p.createLongFlagName
        ({ p with longFlag := some lf }, dictInsert lf pid s.kwargs)
      else (p, s.kwargs)
    let d := match pd.1.longFlag with
      | some lf => dictInsert lf pid pd.2
      | none => pd.2
    let d := match pd.1.shortFlag with
      | some sf => dictInsert sf pid d
      | none => d
    { store := s.store ++ [pd.1], argsIds := s.argsIds, kwargs := d }

/-! ### The token loop of `CommandParser.parse` -/

/-- Outcome of processing one token. -/
inductive StepOut where
  | cont (s : ParserState) (args : List Value) (kw : List (String × Value))
  | stopHelp (s : ParserState) (args : List Value) (kw : List (String × Value))
  | stopVersion (s : ParserState) (args : List Value) (kw : List (String × Value))
  | fail (s : ParserState) (e : ParseErr)
  deriving Repr, DecidableEq

/-- The flag branch of the loop body: pop the flag from `_kwargs`
(`ExtraArgumentProvided` when absent), run the parameter's `parse`, store
the result under the parameter's name, then re-register a container's flag
or deregister a non-container's short and long flags. -/
def handleFlagToken (s : ParserState) (args : List Value)
    (kw : List (String × Value)) (flag value : String) : StepOut :=
  match dictGet flag s.kwargs with
  | none =>
    .fail s (.extraArgument ("Extra argument provided with flag `" ++ flag ++ "`"))
  | some pid =>
    let d := dictRemove flag s.kwargs
    let p := s.store.getD pid dummyParam
    match p.parseValue value with
    | .error e => .fail { s with kwargs := d } e
    | .ok vp =>
      let kw' := dictInsert vp.2.name vp.1 kw
      let d' :=
        if vp.2.isContainer then dictInsert flag pid d
        else dictRemove (vp.2.longFlag.getD "") (dictRemove (vp.2.shortFlag.getD "") d)
      .cont { store := s.store.set pid vp.2, argsIds := s.argsIds, kwargs := d' }
        args kw'

/-- One iteration of the loop in `CommandParser.parse`, in source order:
`--help`, `--version`, flag tokens (split on `=` when present, else the
token serves as both flag and value), then bare tokens consuming the next
positional. -/
def stepTok (s : ParserState) (args : List Value) (kw : List (String × Value))
    (t : String) : StepOut :=
  if t == "--help" then .stopHelp s args kw
  else if t == "--version" then .stopVersion s args kw
  else if pyStartsWithDash t then
    match pySplitEq t with
    | [f, v] => handleFlagToken s args kw f v
    | [_] => handleFlagToken s args kw t t
    | _ => .fail s .unpack
  else
    match s.argsIds with
    | [] => .fail s (.extraArgument ("Extra argument provided `" ++ t ++ "`"))
    | pid :: rest =>
      let p := s.store.getD pid dummyParam
      match p.parseValue t with
      | .error e => .fail { s with argsIds := rest } e
      | .ok vp =>
        .cont { store := s.store.set pid vp.2, argsIds := rest, kwargs := s.kwargs }
          (args ++ [vp.1]) kw

/-- Outcome of the whole token loop. -/
inductive LoopOut where
  | done (s : ParserState) (args : List Value) (kw : List (String × Value))
  | stopHelp (s : ParserState) (args : List Value) (kw : List (String × Value))
  | stopVersion (s : ParserState) (args : List Value) (kw : List (String × Value))
  | fail (s : ParserState) (e : ParseErr)
  deriving Repr, DecidableEq

/-- The `for arg in argv` loop of `CommandParser.parse`. -/
def commandLoop (s : ParserState) (args : List Value)
    (kw : List (String × Value)) : List String → LoopOut
  | [] => .done s args kw
  | t :: rest =>
    match stepTok s args kw t with
    | .cont s' a' k' => commandLoop s' a' k' rest
    | .stopHelp s' a' k' => .stopHelp s' a' k'
    | .stopVersion s' a' k' => .stopVersion s' a' k'
    | .fail s' e => .fail s' e

/-- `BaseParser.raise_missing_args`'s message. -/
def missingMsg (s : ParserState) : String :=
  "Missing argument for positional arguments "
    ++ String.intercalate ", "
        (s.argsIds.map fun pid => (s.store.getD pid dummyParam).metavar)

/-- The post-loop fill of `CommandParser.parse`: every parameter still in
`_kwargs` (except the version parameter) contributes its accumulated
container or its configured default. -/
def fillDefaults (s : ParserState) (kw : List (String × Value)) :
    List (String × Value) :=
  s.kwargs.foldl
    (fun acc fp =>
      let p := s.store.getD fp.2 dummyParam
      if p.name == "version" then acc
      else if p.isContainer then dictInsert p.name (.strList p.container) acc
      else dictInsert p.name p.default acc)
    kw

/-- The four-tuple returned by `CommandParser.parse`. -/
structure ParsedCmd where
  args : List Value
  kwargs : List (String × Value)
  helpOnly : Bool
  versionOnly : Bool
  deriving DecidableEq, Repr

/-- `CommandParser.parse`: run the loop, then either raise
`ArgumentsMissing`, or fill defaults and return.  The final heap is
returned alongside, since parameter-object mutations survive the parse
(they are shared with the un-copied parser). -/
def commandParse (s : ParserState) (argv : List String) :
    Except ParseErr ParsedCmd × List Param :=
  match commandLoop s [] [] argv with
  | .done s' a k =>
    if s'.argsIds.isEmpty then
      (.ok ⟨a, fillDefaults s' k, false, false⟩, s'.store)
    else (.error (.argumentsMissing (missingMsg s')), s'.store)
  | .stopHelp s' a k => (.ok ⟨a, k, true, false⟩, s'.store)
  | .stopVersion s' a k => (.ok ⟨a, k, false, true⟩, s'.store)
  | .fail s' e => (.error e, s'.store)

/-! ### Commands and groups (`wrappers.py`) -/

/-- Outcome of the bound callable when it is reached: it either returns
normally or raises an exception (modelled opaquely). -/
inductive CallResult where
  | success
  | failure
  deriving DecidableEq, Repr

/-- An exception escaping `invoke`: either a raised framework error or the
bound callable's own (non-`CleaException`) failure re-raised by
`BaseWrapper._invoke`. -/
inductive InvokeErr where
  | raised (e : ParseErr)
  | callableError
  deriving DecidableEq, Repr

deriving instance DecidableEq for Except

/-- Result of `invoke`: the exit code (or escaping exception) together with
the names of the bound callables that were actually executed, in order. -/
structure InvokeOut where
  result : Except InvokeErr Nat
  trace : List String
  deriving DecidableEq, Repr

/-- `BaseWrapper._invoke`: print help and return 0 when `help_only`,
otherwise run the callable — 0 on success, and on an exception either
swallow it into exit code 1 (`isolated`) or re-raise. -/
def invokeCore (nm : String) (call : CallResult) (isolated helpOnly : Bool) :
    InvokeOut :=
  if helpOnly then ⟨.ok 0, []⟩
  else
    match call with
    | .success => ⟨.ok 0, [nm]⟩
    | .failure => if isolated then ⟨.ok 1, [nm]⟩ else ⟨.error .callableError, [nm]⟩

/-- A `Command` node: its name and its parser's state.  `Command.invoke`
runs `self._parser.copy().parse(argv)`; the copy duplicates the `_args`
deque and the `_kwargs` dict but shares the parameter objects, so only the
heap is threaded back into the node. -/
structure Cmd where
  name : String
  store : List Param
  argsIds : List Nat
  flags : List (String × Nat)
  deriving DecidableEq, Repr

/-- The fresh `CommandParser.copy` handed to one parse call. -/
def Cmd.parserState (c : Cmd) : ParserState :=
  { store := c.store, argsIds := c.argsIds, kwargs := c.flags }

/-- `Command.invoke`: parse on a copy, print the version and return 0 on
`version_only`, else dispatch through `_invoke`.  Parse errors propagate.
The returned command carries the post-parse heap (shared parameter
objects); its `argsIds`/`flags` maps are untouched, because only the copy
was consumed. -/
def Cmd.invoke (c : Cmd) (call : CallResult) (argv : List String)
    (isolated : Bool) : InvokeOut × Cmd :=
  match commandParse c.parserState argv with
  | (.error e, store') => (⟨.error (.raised e), []⟩, { c with store := store' })
  | (.ok pr, store') =>
    if pr.versionOnly then (⟨.ok 0, []⟩, { c with store := store' })
    else (invokeCore c.name call isolated pr.helpOnly, { c with store := store' })

/-- Outcome of the `GroupParser.parse` token loop: as for commands, plus a
matched child with the remaining tokens. -/
inductive GLoopOut where
  | done (s : ParserState) (args : List Value) (kw : List (String × Value))
  | stopHelp (s : ParserState) (args : List Value) (kw : List (String × Value))
  | stopVersion (s : ParserState) (args : List Value) (kw : List (String × Value))
  | child (s : ParserState) (args : List Value) (kw : List (String × Value))
      (cname : String) (c : Cmd) (subArgv : List String)
  | fail (s : ParserState) (e : ParseErr)
  deriving Repr, DecidableEq

/-- The `for i, arg in enumerate(argv)` loop of `GroupParser.parse`: the
child-name lookup comes first (before even `--help`); every other token is
handled exactly as in `CommandParser.parse`. -/
def groupLoop (children : List (String × Cmd)) (s : ParserState)
    (args : List Value) (kw : List (String × Value)) : List String → GLoopOut
  | [] => .done s args kw
  | t :: rest =>
    match dictGet t children with
    | some c => .child s args kw t c rest
    | none =>
      match stepTok s args kw t with
      | .cont s' a' k' => groupLoop children s' a' k' rest
      | .stopHelp s' a' k' => .stopHelp s' a' k'
      | .stopVersion s' a' k' => .stopVersion s' a' k'
      | .fail s' e => .fail s' e

/-- The six-tuple returned by `GroupParser.parse`. -/
structure ParsedGrp where
  args : List Value
  kwargs : List (String × Value)
  helpOnly : Bool
  versionOnly : Bool
  sub : Option (String × Cmd)
  subArgv : List String
  deriving DecidableEq, Repr

/-- `GroupParser.parse`: identical post-loop handling to the command
parser (the missing-positionals check and default fill also run after a
child match, i.e. after `break`).  On the help/version early returns the
original `argv` is returned in the sub-argv slot, as in the source. -/
def groupParse (s : ParserState) (children : List (String × Cmd))
    (argv : List String) : Except ParseErr ParsedGrp × List Param :=
  match groupLoop children s [] [] argv with
  | .done s' a k =>
    if s'.argsIds.isEmpty then
      (.ok ⟨a, fillDefaults s' k, false, false, none, []⟩, s'.store)
    else (.error (.argumentsMissing (missingMsg s')), s'.store)
  | .child s' a k cn c rest =>
    if s'.argsIds.isEmpty then
      (.ok ⟨a, fillDefaults s' k, false, false, some (cn, c), rest⟩, s'.store)
    else (.error (.argumentsMissing (missingMsg s')), s'.store)
  | .stopHelp s' a k => (.ok ⟨a, k, true, false, none, argv⟩, s'.store)
  | .stopVersion s' a k => (.ok ⟨a, k, false, true, none, argv⟩, s'.store)
  | .fail s' e => (.error e, s'.store)

/-- A `Group` node with (leaf) children; nested groups delegate the same
way, and no claim needs deeper trees. -/
structure Grp where
  name : String
  store : List Param
  argsIds : List Nat
  flags : List (String × Nat)
  children : List (String × Cmd)
  allowDirectExec : Bool := false
  deriving DecidableEq, Repr

/-- `Group.invoke`: parse on a copy; on `version_only` print and return 0;
when a child matched, first run the group's own `_invoke` (its return code
is discarded, but a re-raised exception aborts), then delegate to the
child with `invoke(argv=sub_argv)` — the `isolated` flag is NOT forwarded
(the child runs with the default `isolated=False`); with no child, run
`_invoke` when direct execution is allowed, else print help and return 0.
`calls` supplies each child callable's behaviour by child name. -/
def Grp.invoke (g : Grp) (gcall : CallResult) (calls : String → CallResult)
    (argv : List String) (isolated : Bool) : InvokeOut × Grp :=
  match groupParse { store := g.store, argsIds := g.argsIds, kwargs := g.flags }
      g.children argv with
  | (.error e, store') => (⟨.error (.raised e), []⟩, { g with store := store' })
  | (.ok pr, store') =>
    let g' := { g with store := store' }
    if pr.versionOnly then (⟨.ok 0, []⟩, g')
    else
      match pr.sub with
      | some cnc =>
        let gRes := invokeCore g.name gcall isolated pr.helpOnly
        match gRes.result with
        | .error e => (⟨.error e, gRes.trace⟩, g')
        | .ok _ =>
          let co := Cmd.invoke cnc.2 (calls cnc.1) pr.subArgv false
          let ch := g'.children.map fun nc =>
            if nc.1 == cnc.1 then (nc.1, co.2) else nc
          (⟨co.1.result, gRes.trace ++ co.1.trace⟩, { g' with children := ch })
      | none =>
        if g.allowDirectExec then (invokeCore g.name gcall isolated pr.helpOnly, g')
        else (⟨.ok 0, []⟩, g')

/-! ### Runner (`runner.py`) -/

/-- What `_run` produces: a `Result` carrying the exit code and message,
or an exception the `except CleaException` clause does not catch. -/
inductive RunOutcome where
  | result (exitCode : Nat) (stderr : String)
  | uncaught (e : InvokeErr)
  deriving DecidableEq, Repr

/-- `_run`'s try/except around `cli.invoke`: `CleaException`s become a
`Result` with the carried exit code (always 1 here) and message; anything
else escapes. -/
def runnerRun (out : InvokeOut) : RunOutcome :=
  match out.result with
  | .ok c => .result c ""
  | .error (.raised e) =>
    if e.isClea then .result 1 e.message else .uncaught (.raised e)
  | .error .callableError => .uncaught .callableError

/-! ### Association-list (dict) lemmas -/

theorem dictGet_eq_none_iff {α : Type} {k : String} {d : List (String × α)} :
    dictGet k d = none ↔ ∀ kv ∈ d, kv.1 ≠ k := by
  simp [dictGet, List.find?_eq_none]

theorem dictGet_remove_self {α : Type} (k : String) (d : List (String × α)) :
    dictGet k (dictRemove k d) = none := by
  rw [dictGet_eq_none_iff]
  intro kv hkv
  have := (List.mem_filter.mp hkv).2
  simpa using this

theorem dictGet_remove_none {α : Type} {k : String} (g : String)
    {d : List (String × α)} (h : dictGet k d = none) :
    dictGet k (dictRemove g d) = none := by
  rw [dictGet_eq_none_iff] at h ⊢
  intro kv hkv
  exact h kv (List.mem_filter.mp hkv).1

theorem dictGet_insert_none {α : Type} {k g : String} (v : α)
    {d : List (String × α)} (h : dictGet k d = none) (hne : g ≠ k) :
    dictGet k (dictInsert g v d) = none := by
  rw [dictGet_eq_none_iff] at h ⊢
  intro kv hkv
  unfold dictInsert at hkv
  split at hkv
  · obtain ⟨kv', hkv', hmap⟩ := List.mem_map.mp hkv
    by_cases hk : kv'.1 = g
    · simp [hk] at hmap
      rw [← hmap]
      exact hne
    · simp [hk] at hmap
      rw [← hmap]
      exact h kv' hkv'
  · rcases List.mem_append.mp hkv with hl | hr
    · exact h kv hl
    · simp at hr
      rw [hr]
      exact hne

/-! ### Parameter-object invariants under `parse` -/

theorem parseValue_sig {p p' : Param} {v : String} {val : Value}
    (h : p.parseValue v = .ok (val, p')) :
    p'.name = p.name ∧ p'.kind = p.kind ∧ p'.shortFlag = p.shortFlag
      ∧ p'.longFlag = p.longFlag := by
  unfold Param.parseValue at h
  split at h <;> first
    | (cases h; exact ⟨rfl, rfl, rfl, rfl⟩)
    | cases h
    | (split at h <;> (try cases h) <;> simp_all)

theorem isContainer_congr {p q : Param} (h : p.kind = q.kind) :
    p.isContainer = q.isContainer := by
  unfold Param.isContainer
  rw [h]

theorem metavar_congr {p q : Param} (hn : p.name = q.name) (hk : p.kind = q.kind) :
    p.metavar = q.metavar := by
  unfold Param.metavar
  rw [hn, hk]

theorem getD_set_sig : ∀ (l : List Param) (i : Nat) (p' : Param) (j : Nat),
    p'.name = (l.getD i dummyParam).name → p'.kind = (l.getD i dummyParam).kind →
    ((l.set i p').getD j dummyParam).name = (l.getD j dummyParam).name
      ∧ ((l.set i p').getD j dummyParam).kind = (l.getD j dummyParam).kind := by
  intro l
  induction l with
  | nil => intro i p' j hn hk; simp [List.set]
  | cons hd tl ih =>
    intro i p' j hn hk
    cases i with
    | zero =>
      cases j with
      | zero => simp_all
      | succ j' => simp
    | succ i' =>
      cases j with
      | zero => simp
      | succ j' =>
        simp only [List.set, List.getD_cons_succ] at *
        exact ih i' p' j' hn hk

/-! ### Token-loop lemmas -/

theorem commandLoop_append (xs ys : List String) :
    ∀ (s : ParserState) (a : List Value) (k : List (String × Value)),
    commandLoop s a k (xs ++ ys) =
      match commandLoop s a k xs with
      | .done s' a' k' => commandLoop s' a' k' ys
      | r => r := by
  induction xs with
  | nil => intro s a k; rfl
  | cons t ts ih =>
    intro s a k
    simp only [List.cons_append, commandLoop]
    cases stepTok s a k t with
    | cont s' a' k' => exact ih s' a' k'
    | stopHelp s' a' k' => rfl
    | stopVersion s' a' k' => rfl
    | fail s' e => rfl

/-- Tokens that look like flags never touch the positional deque, and each
bare token consumes exactly one positional; parameter names and kinds in
the heap are preserved throughout a completed loop. -/
theorem commandLoop_done_argsIds : ∀ (argv : List String) (s : ParserState)
    (a : List Value) (k : List (String × Value)) (s₁ : ParserState)
    (a₁ : List Value) (k₁ : List (String × Value)),
    commandLoop s a k argv = .done s₁ a₁ k₁ →
    s₁.argsIds = s.argsIds.drop (argv.countP fun t => !pyStartsWithDash t)
      ∧ ∀ i, ((s₁.store.getD i dummyParam).name = (s.store.getD i dummyParam).name
          ∧ (s₁.store.getD i dummyParam).kind = (s.store.getD i dummyParam).kind) := by
  intro argv
  induction argv with
  | nil =>
    intro s a k s₁ a₁ k₁ h
    cases h
    exact ⟨rfl, fun i => ⟨rfl, rfl⟩⟩
  | cons t ts ih =>
    intro s a k s₁ a₁ k₁ h
    simp only [commandLoop] at h
    cases hst : stepTok s a k t with
    | stopHelp s' a' k' => rw [hst] at h; cases h
    | stopVersion s' a' k' => rw [hst] at h; cases h
    | fail s' e => rw [hst] at h; cases h
    | cont s' a' k' =>
      rw [hst] at h
      obtain ⟨hids, hsig⟩ := ih s' a' k' s₁ a₁ k₁ h
      unfold stepTok at hst
      by_cases h1 : t = "--help"
      · simp [h1] at hst
      · by_cases h2 : t = "--version"
        · simp [h1, h2] at hst
        · by_cases h3 : pyStartsWithDash t
          · simp only [h1, h2, h3, beq_iff_eq, if_true, if_false, if_neg, ite_false,
              ite_true] at hst
            have hflag : ∀ (f v : String),
                handleFlagToken s a k f v = .cont s' a' k' →
                s'.argsIds = s.argsIds
                  ∧ ∀ i, ((s'.store.getD i dummyParam).name
                        = (s.store.getD i dummyParam).name
                      ∧ (s'.store.getD i dummyParam).kind
                        = (s.store.getD i dummyParam).kind) := by
              intro f v hf
              unfold handleFlagToken at hf
              cases hg : dictGet f s.kwargs with
              | none => rw [hg] at hf; cases hf
              | some pid =>
                rw [hg] at hf
                simp only at hf
                cases hp : (s.store.getD pid dummyParam).parseValue v with
                | error e => rw [hp] at hf; cases hf
                | ok vp =>
                  rw [hp] at hf
                  cases hf
                  obtain ⟨hn, hk, _, _⟩ := parseValue_sig hp
                  refine ⟨rfl, fun i => ?_⟩
                  exact getD_set_sig s.store pid vp.2 i hn hk
            cases hsp : pySplitEq t with
            | nil => rw [hsp] at hst; cases hst
            | cons x xs =>
              cases xs with
              | nil =>
                rw [hsp] at hst
                obtain ⟨hids', hsig'⟩ := hflag t t hst
                constructor
                · rw [hids, hids']
                  simp [List.countP_cons, h3]
                · intro i
                  exact ⟨(hsig i).1.trans (hsig' i).1, (hsig i).2.trans (hsig' i).2⟩
              | cons y ys =>
                cases ys with
                | nil =>
                  rw [hsp] at hst
                  obtain ⟨hids', hsig'⟩ := hflag x y hst
                  constructor
                  · rw [hids, hids']
                    simp [List.countP_cons, h3]
                  · intro i
                    exact ⟨(hsig i).1.trans (hsig' i).1, (hsig i).2.trans (hsig' i).2⟩
                | cons z zs => rw [hsp] at hst; cases hst
          · rw [if_neg (by simp [h1]), if_neg (by simp [h2]), if_neg (by simp [h3])] at hst
            cases hids0 : s.argsIds with
            | nil => rw [hids0] at hst; cases hst
            | cons pid rest =>
              rw [hids0] at hst
              simp only at hst
              cases hp : (s.store.getD pid dummyParam).parseValue t with
              | error e => rw [hp] at hst; cases hst
              | ok vp =>
                rw [hp] at hst
                cases hst
                obtain ⟨hn, hk, _, _⟩ := parseValue_sig hp
                constructor
                · rw [hids]
                  simp only [List.countP_cons, h3]
                  simp [hids0]
                · intro i
                  have := getD_set_sig s.store pid vp.2 i hn hk
                  exact ⟨(hsig i).1.trans this.1, (hsig i).2.trans this.2⟩

/-- A non-container parameter's use removes the used flag and its recorded
short and long flags from the registration table. -/
theorem handleFlag_noncontainer_deregisters
    {s : ParserState} {a : List Value} {k : List (String × Value)}
    {f v : String} {pid : Nat} {s' : ParserState} {a' : List Value}
    {k' : List (String × Value)}
    (hget : dictGet f s.kwargs = some pid)
    (hnc : (s.store.getD pid dummyParam).isContainer = false)
    (h : handleFlagToken s a k f v = .cont s' a' k') :
    dictGet f s'.kwargs = none
      ∧ (∀ sf, (s.store.getD pid dummyParam).shortFlag = some sf →
          dictGet sf s'.kwargs = none)
      ∧ (∀ lf, (s.store.getD pid dummyParam).longFlag = some lf →
          dictGet lf s'.kwargs = none) := by
  unfold handleFlagToken at h
  rw [hget] at h
  simp only at h
  cases hp : (s.store.getD pid dummyParam).parseValue v with
  | error e => rw [hp] at h; cases h
  | ok vp =>
    rw [hp] at h
    cases h
    obtain ⟨hn, hk, hsf, hlf⟩ := parseValue_sig hp
    have hc : vp.2.isContainer = false := (isContainer_congr hk).trans hnc
    simp only [hc, Bool.false_eq_true, if_false, ite_false]
    refine ⟨?_, ?_, ?_⟩
    · exact dictGet_remove_none _ (dictGet_remove_none _ (dictGet_remove_self f s.kwargs))
    · intro sf hsf0
      have : vp.2.shortFlag.getD "" = sf := by rw [hsf, hsf0]; rfl
      rw [this]
      exact dictGet_remove_none _ (dictGet_remove_self sf _)
    · intro lf hlf0
      have : vp.2.longFlag.getD "" = lf := by rw [hlf, hlf0]; rfl
      rw [this]
      exact dictGet_remove_self lf _

/-- A flag absent from the registration table stays absent across any
continuing step (only the just-used container flag is ever re-inserted). -/
theorem stepTok_cont_preserves_absent
    {s : ParserState} {a : List Value} {k : List (String × Value)} {t f : String}
    {s' : ParserState} {a' : List Value} {k' : List (String × Value)}
    (hget : dictGet f s.kwargs = none)
    (h : stepTok s a k t = .cont s' a' k') :
    dictGet f s'.kwargs = none := by
  unfold stepTok at h
  by_cases h1 : t = "--help"
  · simp [h1] at h
  · by_cases h2 : t = "--version"
    · simp [h1, h2] at h
    · by_cases h3 : pyStartsWithDash t
      · simp only [h1, h2, h3, beq_iff_eq, if_true, if_false, if_neg, ite_false,
          ite_true] at h
        have hflag : ∀ (g w : String), handleFlagToken s a k g w = .cont s' a' k' →
            dictGet f s'.kwargs = none := by
          intro g w hf
          unfold handleFlagToken at hf
          cases hg : dictGet g s.kwargs with
          | none => rw [hg] at hf; cases hf
          | some pid =>
            have hne : g ≠ f := by
              intro hgf
              rw [hgf, hget] at hg
              cases hg
            rw [hg] at hf
            simp only at hf
            cases hp : (s.store.getD pid dummyParam).parseValue w with
            | error e => rw [hp] at hf; cases hf
            | ok vp =>
              rw [hp] at hf
              cases hf
              by_cases hc : vp.2.isContainer
              · simp only [hc, if_true, ite_true]
                exact dictGet_insert_none pid (dictGet_remove_none g hget) hne
              · simp only [hc, Bool.false_eq_true, if_false, ite_false]
                exact dictGet_remove_none _
                  (dictGet_remove_none _ (dictGet_remove_none g hget))
        cases hsp : pySplitEq t with
        | nil => rw [hsp] at h; cases h
        | cons x xs =>
          cases xs with
          | nil =>
            rw [hsp] at h
            exact hflag t t h
          | cons y ys =>
            cases ys with
            | nil => rw [hsp] at h; exact hflag x y h
            | cons z zs => rw [hsp] at h; cases h
      · rw [if_neg (by simp [h1]), if_neg (by simp [h2]), if_neg (by simp [h3])] at h
        cases hids0 : s.argsIds with
        | nil => rw [hids0] at h; cases h
        | cons pid rest =>
          rw [hids0] at h
          simp only at h
          cases hp : (s.store.getD pid dummyParam).parseValue t with
          | error e => rw [hp] at h; cases h
          | ok vp =>
            rw [hp] at h
            cases h
            exact hget

/-- Loop-level version of `stepTok_cont_preserves_absent`. -/
theorem commandLoop_preserves_absent : ∀ (argv : List String) (s : ParserState)
    (a : List Value) (k : List (String × Value)) (s₁ : ParserState)
    (a₁ : List Value) (k₁ : List (String × Value)) (f : String),
    dictGet f s.kwargs = none →
    commandLoop s a k argv = .done s₁ a₁ k₁ →
    dictGet f s₁.kwargs = none := by
  intro argv
  induction argv with
  | nil =>
    intro s a k s₁ a₁ k₁ f hget h
    cases h
    exact hget
  | cons t ts ih =>
    intro s a k s₁ a₁ k₁ f hget h
    simp only [commandLoop] at h
    cases hst : stepTok s a k t with
    | stopHelp s' a' k' => rw [hst] at h; cases h
    | stopVersion s' a' k' => rw [hst] at h; cases h
    | fail s' e => rw [hst] at h; cases h
    | cont s' a' k' =>
      rw [hst] at h
      exact ih s' a' k' s₁ a₁ k₁ f (stepTok_cont_preserves_absent hget hst) h

/-- A token addressed at an unregistered (or already consumed) flag raises
`ExtraArgumentProvided` at once. -/
theorem stepTok_flag_absent_fails
    {s : ParserState} {a : List Value} {k : List (String × Value)} {t f v : String}
    (hget : dictGet f s.kwargs = none)
    (h1 : t ≠ "--help") (h2 : t ≠ "--version") (h3 : pyStartsWithDash t = true)
    (hsp : pySplitEq t = [f, v] ∨ (pySplitEq t = [t] ∧ f = t)) :
    stepTok s a k t
      = .fail s (.extraArgument ("Extra argument provided with flag `" ++ f ++ "`")) := by
  unfold stepTok
  rw [if_neg (by simp [h1]), if_neg (by simp [h2]), if_pos h3]
  rcases hsp with hsp | ⟨hsp, hf⟩
  · rw [hsp]
    show handleFlagToken s a k f v
      = .fail s (.extraArgument ("Extra argument provided with flag `" ++ f ++ "`"))
    unfold handleFlagToken
    rw [hget]
  · subst hf
    rw [hsp]
    show handleFlagToken s a k f f
      = .fail s (.extraArgument ("Extra argument provided with flag `" ++ f ++ "`"))
    unfold handleFlagToken
    rw [hget]

/-- Evaluation of a successful non-container flag token of the form
`flag=value`: the inline value is handed to `parse`, the result is stored
under the parameter's name, the positional deque is untouched, and the
used, short and long flags are deregistered. -/
theorem stepTok_flag_eval
    {s : ParserState} {a : List Value} {k : List (String × Value)}
    {t f v : String} {pid : Nat} {p p' : Param} {val : Value}
    (hsp : pySplitEq t = [f, v]) (h1 : t ≠ "--help") (h2 : t ≠ "--version")
    (h3 : pyStartsWithDash t = true)
    (hget : dictGet f s.kwargs = some pid)
    (hp : s.store.getD pid dummyParam = p)
    (hpv : p.parseValue v = .ok (val, p'))
    (hnc : p'.isContainer = false) :
    stepTok s a k t = .cont
      { store := s.store.set pid p', argsIds := s.argsIds,
        kwargs := dictRemove (p'.longFlag.getD "")
          (dictRemove (p'.shortFlag.getD "") (dictRemove f s.kwargs)) }
      a (dictInsert p'.name val k) := by
  unfold stepTok
  rw [if_neg (by simp [h1]), if_neg (by simp [h2]), if_pos h3, hsp]
  show handleFlagToken s a k f v = _
  unfold handleFlagToken
  simp only [hget, hp, hpv, hnc, Bool.false_eq_true, if_false, ite_false]

/-- Evaluation of a successful non-container flag token with no `=`: the
token itself is handed to `parse` as the raw value. -/
theorem stepTok_flag_eval_plain
    {s : ParserState} {a : List Value} {k : List (String × Value)}
    {f : String} {pid : Nat} {p p' : Param} {val : Value}
    (hsp : pySplitEq f = [f]) (h1 : f ≠ "--help") (h2 : f ≠ "--version")
    (h3 : pyStartsWithDash f = true)
    (hget : dictGet f s.kwargs = some pid)
    (hp : s.store.getD pid dummyParam = p)
    (hpv : p.parseValue f = .ok (val, p'))
    (hnc : p'.isContainer = false) :
    stepTok s a k f = .cont
      { store := s.store.set pid p', argsIds := s.argsIds,
        kwargs := dictRemove (p'.longFlag.getD "")
          (dictRemove (p'.shortFlag.getD "") (dictRemove f s.kwargs)) }
      a (dictInsert p'.name val k) := by
  unfold stepTok
  rw [if_neg (by simp [h1]), if_neg (by simp [h2]), if_pos h3, hsp]
  show handleFlagToken s a k f f = _
  unfold handleFlagToken
  simp only [hget, hp, hpv, hnc, Bool.false_eq_true, if_false, ite_false]

/-- A bare token with no positional slot left raises
`ExtraArgumentProvided` naming the token. -/
theorem stepTok_bare_no_slot
    {s : ParserState} {a : List Value} {k : List (String × Value)} {w : String}
    (hd : pyStartsWithDash w = false) (hids : s.argsIds = []) :
    stepTok s a k w
      = .fail s (.extraArgument ("Extra argument provided `" ++ w ++ "`")) := by
  have h1 : w ≠ "--help" := fun he => absurd (he ▸ hd) (by decide)
  have h2 : w ≠ "--version" := fun he => absurd (he ▸ hd) (by decide)
  unfold stepTok
  rw [if_neg (by simp [h1]), if_neg (by simp [h2]), if_neg (by simp [hd]), hids]

/-! ### The `StringList` accumulator across one parse -/

/-- The parser state holding one `StringList` parameter registered under
its long flag, with accumulator `c` — the state `ParserState.add` builds
from `mkStringList nm none (some fl)` up to the accumulator contents. -/
def slState (nm fl : String) (c : List String) : ParserState :=
  { store := [{ kind := .stringList, name := nm, longFlag := some fl,
                default := .strList [], container := c }],
    argsIds := [], kwargs := [(fl, 0)] }

theorem slState_add (nm fl : String) :
    ParserState.empty.add (mkStringList nm none (some fl)) = slState nm fl [] := rfl

/-- One `flag=value` token appends to the shared accumulator and stores
the whole sequence so far. -/
theorem slStep (nm fl w : String) (c : List String) (a : List Value)
    (kw : List (String × Value))
    (hsp : pySplitEq (fl ++ "=" ++ w) = [fl, w])
    (hd : pyStartsWithDash (fl ++ "=" ++ w) = true) :
    stepTok (slState nm fl c) a kw (fl ++ "=" ++ w)
      = .cont (slState nm fl (c ++ [w])) a
          (dictInsert nm (.strList (c ++ [w])) kw) := by
  have h1 : fl ++ "=" ++ w ≠ "--help" := by
    intro he
    rw [he] at hsp
    rw [show pySplitEq "--help" = ["--help"] from by decide] at hsp
    simp at hsp
  have h2 : fl ++ "=" ++ w ≠ "--version" := by
    intro he
    rw [he] at hsp
    rw [show pySplitEq "--version" = ["--version"] from by decide] at hsp
    simp at hsp
  unfold stepTok
  rw [if_neg (by simp [h1]), if_neg (by simp [h2]), if_pos hd, hsp]
  show handleFlagToken (slState nm fl c) a kw fl w = _
  unfold handleFlagToken
  simp [slState, dictGet, dictRemove, dictInsert, Param.parseValue, Param.isContainer,
    List.find?]

/-- Accumulation over a whole token list, starting from a result dict that
already binds the parameter's name. -/
theorem slLoopAux (nm fl : String) : ∀ (vs c : List String) (a : List Value),
    (∀ v ∈ vs, pySplitEq (fl ++ "=" ++ v) = [fl, v]
      ∧ pyStartsWithDash (fl ++ "=" ++ v) = true) →
    commandLoop (slState nm fl c) a [(nm, .strList c)]
        (vs.map fun v => fl ++ "=" ++ v)
      = .done (slState nm fl (c ++ vs)) a [(nm, .strList (c ++ vs))] := by
  intro vs
  induction vs with
  | nil => intro c a hv; simp [commandLoop]
  | cons w ws ih =>
    intro c a hv
    have hw := hv w (List.mem_cons_self w ws)
    simp only [List.map_cons, commandLoop,
      slStep nm fl w c a [(nm, .strList c)] hw.1 hw.2]
    have hins : dictInsert nm (Value.strList (c ++ [w])) [(nm, Value.strList c)]
        = [(nm, Value.strList (c ++ [w]))] := by
      simp [dictInsert, List.find?]
    rw [hins]
    have := ih (c ++ [w]) a (fun v hv' => hv v (List.mem_cons_of_mem w hv'))
    rw [this, List.append_assoc]
    rfl

/-! ### Concrete fixtures used by witnesses and counterexamples -/

/-- A leaf parser with a single flag-only `String` parameter `--name`. -/
def nameFlagState : ParserState :=
  ParserState.empty.add (mkString "name" none (some "--name"))

/-- A leaf parser with a single flag-only `String` parameter `--x`. -/
def xFlagState : ParserState :=
  ParserState.empty.add (mkString "x" none (some "--x"))

/-- A command with one repeatable `StringList` parameter `-v` (its long
flag `--v` is auto-derived because a default is present). -/
def vListCmd : Cmd :=
  let s := ParserState.empty.add (mkStringList "v" (some "-v") none)
  ⟨"vcmd", s.store, s.argsIds, s.kwargs⟩

/-- A parser with one `ChoiceByFlag` parameter over members RED and BLUE. -/
def colorState : ParserState :=
  ParserState.empty.add (mkChoiceByFlag "color" ["RED", "BLUE"])

/-- A parser with two positional `String` parameters. -/
def srcDstState : ParserState :=
  (ParserState.empty.add (mkPositionalString "src")).add (mkPositionalString "dst")

/-- A leaf command `a` expecting one positional `String`. -/
def aChildCmd : Cmd :=
  let s := ParserState.empty.add (mkPositionalString "x1")
  ⟨"a", s.store, s.argsIds, s.kwargs⟩

/-- A parameterless leaf command `b`. -/
def bChildCmd : Cmd := ⟨"b", [], [], []⟩

/-- A group with children a and b and direct execution disallowed. -/
def abGroup : Grp := ⟨"grp", [], [], [], [("a", aChildCmd), ("b", bChildCmd)], false⟩

/-! ### Claims -/

/-- C1, counterexample: for the flag-only `String` parameter `--name`,
`["--name=x"]` parses to `name = "x"`, while `["--name", "x"]` stores the
token `"--name"` itself as the value and then fails on `"x"` as an extra
positional — the two argument vectors do not parse to identical results. -/
theorem c1_counterexample :
    (commandParse nameFlagState ["--name=x"]).1
        = .ok ⟨[], [("name", .str "x")], false, false⟩
      ∧ (commandParse nameFlagState ["--name", "x"]).1
        = .error (.extraArgument "Extra argument provided `x`")
      ∧ (commandParse nameFlagState ["--name=x"]).1
        ≠ (commandParse nameFlagState ["--name", "x"]).1 := by
  refine ⟨by decide, by decide, by decide⟩

/-- C1, amended: `--flag=value` and `--flag value` are NOT equivalent.
For a `String` flag parameter, the token `flag=value` stores the inline
`value`, while the lone token `flag` stores the flag token itself as the
raw value (the source uses the token as both flag and value), and the
following separate token is handed to positional matching — failing as an
extra argument when no positional slot remains. -/
theorem c1_amended :
    (∀ (s : ParserState) (a : List Value) (k : List (String × Value))
        (t f v : String) (pid : Nat) (p : Param),
        pySplitEq t = [f, v] → t ≠ "--help" → t ≠ "--version" →
        pyStartsWithDash t = true →
        dictGet f s.kwargs = some pid → s.store.getD pid dummyParam = p →
        p.kind = .string →
        stepTok s a k t = .cont
          { store := s.store.set pid p, argsIds := s.argsIds,
            kwargs := dictRemove (p.longFlag.getD "")
              (dictRemove (p.shortFlag.getD "") (dictRemove f s.kwargs)) }
          a (dictInsert p.name (.str v) k))
  ∧ (∀ (s : ParserState) (a : List Value) (k : List (String × Value))
        (f : String) (pid : Nat) (p : Param),
        pySplitEq f = [f] → f ≠ "--help" → f ≠ "--version" →
        pyStartsWithDash f = true →
        dictGet f s.kwargs = some pid → s.store.getD pid dummyParam = p →
        p.kind = .string →
        stepTok s a k f = .cont
          { store := s.store.set pid p, argsIds := s.argsIds,
            kwargs := dictRemove (p.longFlag.getD "")
              (dictRemove (p.shortFlag.getD "") (dictRemove f s.kwargs)) }
          a (dictInsert p.name (.str f) k))
  ∧ (∀ (s : ParserState) (a : List Value) (k : List (String × Value)) (w : String),
        pyStartsWithDash w = false → s.argsIds = [] →
        stepTok s a k w
          = .fail s (.extraArgument ("Extra argument provided `" ++ w ++ "`"))) := by
  refine ⟨?_, ?_, ?_⟩
  · intro s a k t f v pid p hsp h1 h2 h3 hget hp hkind
    have hpv : p.parseValue v = .ok (.str v, p) := by
      unfold Param.parseValue
      rw [hkind]
    have hnc : p.isContainer = false := by
      unfold Param.isContainer
      rw [hkind]
      rfl
    exact stepTok_flag_eval hsp h1 h2 h3 hget hp hpv hnc
  · intro s a k f pid p hsp h1 h2 h3 hget hp hkind
    have hpv : p.parseValue f = .ok (.str f, p) := by
      unfold Param.parseValue
      rw [hkind]
    have hnc : p.isContainer = false := by
      unfold Param.isContainer
      rw [hkind]
      rfl
    exact stepTok_flag_eval_plain hsp h1 h2 h3 hget hp hpv hnc
  · intro s a k w hd hids
    exact stepTok_bare_no_slot hd hids

/-- C1, witness for the amended statement: concrete instances of all three
conjuncts on the `--name` fixture. -/
theorem c1_witness :
    stepTok nameFlagState [] [] "--name=x"
        = .cont ⟨nameFlagState.store, [], []⟩ [] [("name", .str "x")]
      ∧ stepTok nameFlagState [] [] "--name"
        = .cont ⟨nameFlagState.store, [], []⟩ [] [("name", .str "--name")]
      ∧ stepTok nameFlagState [] [] "x"
        = .fail nameFlagState (.extraArgument "Extra argument provided `x`") := by
  have h1 := c1_amended.1 nameFlagState [] [] "--name=x" "--name" "x" 0
    (nameFlagState.store.getD 0 dummyParam) (by decide) (by decide) (by decide)
    (by decide) (by decide) rfl (by decide)
  have h2 := c1_amended.2.1 nameFlagState [] [] "--name" 0
    (nameFlagState.store.getD 0 dummyParam) (by decide) (by decide) (by decide)
    (by decide) (by decide) rfl (by decide)
  have h3 := c1_amended.2.2 nameFlagState [] [] "x" (by decide) (by decide)
  refine ⟨?_, ?_, ?_⟩
  · rw [h1]; decide
  · rw [h2]; decide
  · rw [h3]; decide

/-- C2: the claim is right and the code is wrong.  `CommandParser.copy`
copies the `_args` deque and the `_kwargs` dict shallowly, so the
`StringList` parameter object — and its `container` accumulator — is
shared between invocations: invoking the same command twice with
`["-v=a"]` yields `["a"]` the first time but `["a", "a"]` the second,
instead of the fresh `["a"]` the specification promises. -/
theorem c2_container_state_leaks :
    (commandParse vListCmd.parserState ["-v=a"]).1
        = .ok ⟨[], [("v", .strList ["a"])], false, false⟩
      ∧ (commandParse (Cmd.invoke vListCmd .success ["-v=a"] false).2.parserState
          ["-v=a"]).1
        = .ok ⟨[], [("v", .strList ["a", "a"])], false, false⟩ := by
  refine ⟨by decide, by decide⟩

/-- C4, counterexample: after `--red` is consumed, `--blue` is still
registered (a `ChoiceByFlag` records no short or long flag of its own, so
only the exact token used is deregistered); `["--red", "--blue"]`
therefore parses successfully to BLUE instead of failing with
`ExtraArgumentProvided`. -/
theorem c4_counterexample :
    (commandParse colorState ["--red", "--blue"]).1
      = .ok ⟨[], [("color", .enumv "BLUE")], false, false⟩ := by decide

/-- C4, amended: the parameter set registers exactly `--red` and `--blue`
(in enum order, both mapped to the single parameter); `--red` parses to
RED; repeating the same flag fails with `ExtraArgumentProvided`; but a
different flag of the same parameter is still accepted and overwrites the
choice. -/
theorem c4_amended :
    colorState.kwargs = [("--red", 0), ("--blue", 0)]
      ∧ colorState.store = [mkChoiceByFlag "color" ["RED", "BLUE"]]
      ∧ (commandParse colorState ["--red"]).1
        = .ok ⟨[], [("color", .enumv "RED")], false, false⟩
      ∧ (commandParse colorState ["--red", "--red"]).1
        = .error (.extraArgument "Extra argument provided with flag `--red`")
      ∧ (commandParse colorState ["--red", "--blue"]).1
        = .ok ⟨[], [("color", .enumv "BLUE")], false, false⟩ := by
  refine ⟨by decide, by decide, by decide, by decide, by decide⟩

/-- C10: a flag token holding two `=` characters makes
`flag, value = arg.split("=")` raise a plain `ValueError`, which is not in
the `CleaException` family, so the runner's catch does not convert it into
an exit code and message. -/
theorem c10_unpack_escapes_framework :
    (commandParse xFlagState ["--x=a=b"]).1 = .error .unpack
      ∧ ParseErr.isClea .unpack = false
      ∧ runnerRun ⟨.error (.raised .unpack), []⟩ = .uncaught (.raised .unpack) := by
  refine ⟨by decide, rfl, rfl⟩

/-- C5: within one parse, (1) a successful use of a non-container flag
deregisters the used flag and the parameter's short and long flags; (2) a
flag absent from the table stays absent for the rest of the loop; (3) a
token addressed at an absent flag fails with `ExtraArgumentProvided`; and
(4) a container (`StringList`) parameter supplied `n` times accumulates
exactly those `n` raw values in occurrence order. -/
theorem c5_flag_consumed_once_containers_accumulate :
    (∀ (s : ParserState) (a : List Value) (k : List (String × Value))
        (f v : String) (pid : Nat) (s' : ParserState) (a' : List Value)
        (k' : List (String × Value)),
        dictGet f s.kwargs = some pid →
        (s.store.getD pid dummyParam).isContainer = false →
        handleFlagToken s a k f v = .cont s' a' k' →
        dictGet f s'.kwargs = none
          ∧ (∀ sf, (s.store.getD pid dummyParam).shortFlag = some sf →
              dictGet sf s'.kwargs = none)
          ∧ (∀ lf, (s.store.getD pid dummyParam).longFlag = some lf →
              dictGet lf s'.kwargs = none))
  ∧ (∀ (argv : List String) (s : ParserState) (a : List Value)
        (k : List (String × Value)) (s₁ : ParserState) (a₁ : List Value)
        (k₁ : List (String × Value)) (f : String),
        dictGet f s.kwargs = none →
        commandLoop s a k argv = .done s₁ a₁ k₁ →
        dictGet f s₁.kwargs = none)
  ∧ (∀ (s : ParserState) (a : List Value) (k : List (String × Value))
        (t f v : String),
        dictGet f s.kwargs = none →
        t ≠ "--help" → t ≠ "--version" → pyStartsWithDash t = true →
        (pySplitEq t = [f, v] ∨ (pySplitEq t = [t] ∧ f = t)) →
        stepTok s a k t = .fail s
          (.extraArgument ("Extra argument provided with flag `" ++ f ++ "`")))
  ∧ (∀ (nm fl : String) (vs : List String),
        nm ≠ "version" →
        (∀ v ∈ vs, pySplitEq (fl ++ "=" ++ v) = [fl, v]
          ∧ pyStartsWithDash (fl ++ "=" ++ v) = true) →
        (commandParse (ParserState.empty.add (mkStringList nm none (some fl)))
            (vs.map fun v => fl ++ "=" ++ v)).1
          = .ok ⟨[], [(nm, .strList vs)], false, false⟩) := by
  refine ⟨?_, ?_, ?_, ?_⟩
  · intro s a k f v pid s' a' k' hget hnc h
    exact handleFlag_noncontainer_deregisters hget hnc h
  · intro argv s a k s₁ a₁ k₁ f hget h
    exact commandLoop_preserves_absent argv s a k s₁ a₁ k₁ f hget h
  · intro s a k t f v hget h1 h2 h3 hsp
    exact stepTok_flag_absent_fails hget h1 h2 h3 hsp
  · intro nm fl vs hnm hv
    rw [slState_add]
    cases vs with
    | nil =>
      unfold commandParse
      simp only [List.map_nil, commandLoop]
      simp [slState, fillDefaults, dictInsert, Param.isContainer, hnm, List.getD]
    | cons w ws =>
      unfold commandParse
      have hw := hv w (List.mem_cons_self w ws)
      simp only [List.map_cons, commandLoop,
        slStep nm fl w [] [] [] hw.1 hw.2]
      have hins : dictInsert nm (Value.strList ([] ++ [w])) []
          = [(nm, Value.strList ([] ++ [w]))] := by
        simp [dictInsert]
      rw [hins, slLoopAux nm fl ws ([] ++ [w]) []
        (fun v hv' => hv v (List.mem_cons_of_mem w hv'))]
      simp only [List.nil_append, List.singleton_append]
      simp [slState, fillDefaults, dictInsert, Param.isContainer, hnm, List.getD,
        List.find?]

/-- C5, witness: the accumulator conjunct applied to two occurrences of
`-v=...`, and the absent-flag conjunct applied to an empty table. -/
theorem c5_witness :
    (commandParse (ParserState.empty.add (mkStringList "v" none (some "-v")))
        ["-v=a", "-v=b"]).1
      = .ok ⟨[], [("v", .strList ["a", "b"])], false, false⟩ := by
  have h := c5_flag_consumed_once_containers_accumulate.2.2.2 "v" "-v" ["a", "b"]
    (by decide) (by decide)
  simpa using h

/-- C6: whenever the token loop completes with fewer bare (positional)
tokens than declared positional slots, the parse fails with
`ArgumentsMissing` whose message lists exactly the metavars of the
unfilled positional parameters, in declaration order (the remaining suffix
of the declaration-ordered deque). -/
theorem c6_missing_positionals : ∀ (s : ParserState) (argv : List String)
    (s₁ : ParserState) (a : List Value) (k : List (String × Value)),
    commandLoop s [] [] argv = .done s₁ a k →
    (argv.countP fun t => !pyStartsWithDash t) < s.argsIds.length →
    (commandParse s argv).1 = .error (.argumentsMissing
      ("Missing argument for positional arguments " ++ String.intercalate ", "
        ((s.argsIds.drop (argv.countP fun t => !pyStartsWithDash t)).map
          fun pid => (s.store.getD pid dummyParam).metavar))) := by
  intro s argv s₁ a k hloop hlt
  obtain ⟨hids, hsig⟩ := commandLoop_done_argsIds argv s [] [] s₁ a k hloop
  have hlen : s₁.argsIds.length
      = s.argsIds.length - (argv.countP fun t => !pyStartsWithDash t) := by
    rw [hids, List.length_drop]
  have hne : s₁.argsIds ≠ [] := by
    intro h0
    rw [h0] at hlen
    simp at hlen
    omega
  have hemp : s₁.argsIds.isEmpty = false := by
    cases hh : s₁.argsIds with
    | nil => exact absurd hh hne
    | cons x xs => rfl
  have hparse : (commandParse s argv).1
      = .error (.argumentsMissing (missingMsg s₁)) := by
    unfold commandParse
    rw [hloop]
    simp [hemp]
  rw [hparse]
  unfold missingMsg
  rw [hids]
  have hmap : ∀ pid, (s₁.store.getD pid dummyParam).metavar
      = (s.store.getD pid dummyParam).metavar :=
    fun pid => metavar_congr (hsig pid).1 (hsig pid).2
  simp only [hmap]

/-- C6, witness: two positionals, one supplied, message names `dst`. -/
theorem c6_witness :
    (commandParse srcDstState ["x"]).1 = .error (.argumentsMissing
      "Missing argument for positional arguments <DST type=str>") := by
  have h := c6_missing_positionals srcDstState ["x"]
    ⟨srcDstState.store, [1], []⟩ [.str "x"] [] (by decide) (by decide)
  rw [h]
  decide

/-- C7: when the token loop reaches a literal `--help` token, parsing
stops at once — the result is independent of every later token — the
invocation returns exit code 0 and the bound callable is never executed
(the invocation trace is empty). -/
theorem c7_help_short_circuit : ∀ (c : Cmd) (call : CallResult) (iso : Bool)
    (pre rest : List String) (s₁ : ParserState) (a : List Value)
    (k : List (String × Value)),
    commandLoop c.parserState [] [] pre = .done s₁ a k →
    (Cmd.invoke c call (pre ++ "--help" :: rest) iso).1 = ⟨.ok 0, []⟩
      ∧ Cmd.invoke c call (pre ++ "--help" :: rest) iso
        = Cmd.invoke c call (pre ++ ["--help"]) iso := by
  intro c call iso pre rest s₁ a k h
  have key : ∀ (rest' : List String),
      commandParse c.parserState (pre ++ "--help" :: rest')
        = (.ok ⟨a, k, true, false⟩, s₁.store) := by
    intro rest'
    unfold commandParse
    rw [commandLoop_append pre ("--help" :: rest') c.parserState [] [], h]
    simp [commandLoop, stepTok]
  constructor
  · unfold Cmd.invoke
    rw [key rest]
    simp [invokeCore]
  · unfold Cmd.invoke
    rw [key rest, show pre ++ ["--help"] = pre ++ "--help" :: [] from rfl, key []]

/-- C7, witness: `--help` first, a bogus token after it, failing callable —
still exit 0, nothing invoked, and the trailing token is irrelevant. -/
theorem c7_witness :
    (Cmd.invoke aChildCmd .failure ["--help", "zzz"] false).1 = ⟨.ok 0, []⟩
      ∧ Cmd.invoke aChildCmd .failure ["--help", "zzz"] false
        = Cmd.invoke aChildCmd .failure ["--help"] false := by
  have h := c7_help_short_circuit aChildCmd .failure false [] ["zzz"]
    aChildCmd.parserState [] [] (by decide)
  exact h

/-- C8: a Boolean parameter with configured default `d` parses to `not d`
whenever its flag is supplied — with any inline text (`flag=text`) or with
none — without touching the positional deque (no value token is consumed);
and when the flag never appears, the post-loop fill maps the parameter to
its default `d`. -/
theorem c8_boolean_toggle :
    (∀ (s : ParserState) (a : List Value) (k : List (String × Value))
        (t f v : String) (pid : Nat) (p : Param) (d : Bool),
        pySplitEq t = [f, v] → t ≠ "--help" → t ≠ "--version" →
        pyStartsWithDash t = true →
        dictGet f s.kwargs = some pid → s.store.getD pid dummyParam = p →
        p.kind = .boolean → p.default = .bool d →
        stepTok s a k t = .cont
          { store := s.store.set pid p, argsIds := s.argsIds,
            kwargs := dictRemove (p.longFlag.getD "")
              (dictRemove (p.shortFlag.getD "") (dictRemove f s.kwargs)) }
          a (dictInsert p.name (.bool (!d)) k))
  ∧ (∀ (s : ParserState) (a : List Value) (k : List (String × Value))
        (f : String) (pid : Nat) (p : Param) (d : Bool),
        pySplitEq f = [f] → f ≠ "--help" → f ≠ "--version" →
        pyStartsWithDash f = true →
        dictGet f s.kwargs = some pid → s.store.getD pid dummyParam = p →
        p.kind = .boolean → p.default = .bool d →
        stepTok s a k f = .cont
          { store := s.store.set pid p, argsIds := s.argsIds,
            kwargs := dictRemove (p.longFlag.getD "")
              (dictRemove (p.shortFlag.getD "") (dictRemove f s.kwargs)) }
          a (dictInsert p.name (.bool (!d)) k))
  ∧ (∀ (nm : String) (d : Bool), nm ≠ "version" →
        (commandParse (ParserState.empty.add (mkBoolean nm none none d)) []).1
          = .ok ⟨[], [(nm, .bool d)], false, false⟩) := by
  refine ⟨?_, ?_, ?_⟩
  · intro s a k t f v pid p d hsp h1 h2 h3 hget hp hkind hdef
    have hpv : p.parseValue v = .ok (.bool (!d), p) := by
      unfold Param.parseValue
      rw [hkind, hdef]
      rfl
    have hnc : p.isContainer = false := by
      unfold Param.isContainer
      rw [hkind]
      rfl
    exact stepTok_flag_eval hsp h1 h2 h3 hget hp hpv hnc
  · intro s a k f pid p d hsp h1 h2 h3 hget hp hkind hdef
    have hpv : p.parseValue f = .ok (.bool (!d), p) := by
      unfold Param.parseValue
      rw [hkind, hdef]
      rfl
    have hnc : p.isContainer = false := by
      unfold Param.isContainer
      rw [hkind]
      rfl
    exact stepTok_flag_eval_plain hsp h1 h2 h3 hget hp hpv hnc
  · intro nm d hnm
    have hadd : ParserState.empty.add (mkBoolean nm none none d)
        = { store := [{ kind := .boolean, name := nm, shortFlag := none,
                        longFlag := some ("--" ++ underscoreToHyphen nm),
                        default := .bool d, container := [], flagToValue := [],
                        choices := [] }],
            argsIds := [], kwargs := [("--" ++ underscoreToHyphen nm, 0)] } := by
      cases d with
      | false =>
        simp [ParserState.add, mkBoolean, dictInsert, Param.createLongFlagName,
          ParserState.empty]
      | true =>
        simp [ParserState.add, mkBoolean, dictInsert, Param.createLongFlagName,
          ParserState.empty]
    rw [hadd]
    unfold commandParse commandLoop
    simp [fillDefaults, dictInsert, Param.isContainer, hnm, List.getD]

/-- C8, witness: a concrete Boolean flag with default `true`: presence (in
both token forms) yields `false`, absence yields `true`. -/
theorem c8_witness :
    (commandParse (ParserState.empty.add (mkBoolean "verbose" none none true)) []).1
        = .ok ⟨[], [("verbose", .bool true)], false, false⟩
      ∧ stepTok (ParserState.empty.add (mkBoolean "verbose" none none true)) [] []
          "--verbose"
        = .cont ⟨[mkBoolean "verbose" none (some "--verbose") true], [], []⟩ []
            [("verbose", .bool false)] := by
  constructor
  · exact c8_boolean_toggle.2.2 "verbose" true (by decide)
  · have h := c8_boolean_toggle.2.1
      (ParserState.empty.add (mkBoolean "verbose" none none true)) [] [] "--verbose" 0
      (mkBoolean "verbose" none (some "--verbose") true) true
      (by decide) (by decide) (by decide) (by decide) (by decide) (by decide)
      (by decide) (by decide)
    rw [h]
    decide

/-- C3, counterexample: dispatching `["a", "x"]` through the group DOES
execute the group's own bound callable before delegating — the invocation
trace is `["grp", "a"]`, not `["a"]` alone. -/
theorem c3_counterexample :
    (Grp.invoke abGroup .success (fun _ => .success) ["a", "x"] false).1
      = ⟨.ok 0, ["grp", "a"]⟩ := by decide

/-- C3, amended: with children a and b and direct execution disallowed,
invoking the group with `["a", "x"]` first executes the group's own bound
callable and then invokes child A with exactly `["x"]` (same exit status
as A's invocation, trace prefixed by the group's callable); invoking with
`[]` prints the group's help and returns exit code 0 with no callable
executed. -/
theorem c3_amended : ∀ (gname : String) (store : List Param)
    (flags : List (String × Nat)) (A B : Cmd) (calls : String → CallResult)
    (iso : Bool),
    ((Grp.invoke ⟨gname, store, [], flags, [("a", A), ("b", B)], false⟩ .success
          calls ["a", "x"] iso).1.result
        = (Cmd.invoke A (calls "a") ["x"] false).1.result
      ∧ (Grp.invoke ⟨gname, store, [], flags, [("a", A), ("b", B)], false⟩ .success
          calls ["a", "x"] iso).1.trace
        = gname :: (Cmd.invoke A (calls "a") ["x"] false).1.trace)
    ∧ (∀ gcall, (Grp.invoke ⟨gname, store, [], flags, [("a", A), ("b", B)], false⟩
        gcall calls [] iso).1 = ⟨.ok 0, []⟩) := by
  intro gname store flags A B calls iso
  constructor
  · cases hco : Cmd.invoke A (calls "a") ["x"] false with
    | mk co A' =>
      constructor
      · unfold Grp.invoke groupParse groupLoop
        simp [dictGet, List.find?, invokeCore, hco]
      · unfold Grp.invoke groupParse groupLoop
        simp [dictGet, List.find?, invokeCore, hco]
  · intro gcall
    unfold Grp.invoke groupParse groupLoop
    simp

/-- C3, witness: the amended dispatch statement at a concrete group. -/
theorem c3_witness :
    (Grp.invoke ⟨"g1", [], [], [], [("a", aChildCmd), ("b", bChildCmd)], false⟩
        .success (fun _ => .success) ["a", "x"] false).1.trace
      = "g1" :: (Cmd.invoke aChildCmd .success ["x"] false).1.trace
    ∧ (Grp.invoke ⟨"g1", [], [], [], [("a", aChildCmd), ("b", bChildCmd)], false⟩
        .success (fun _ => .success) [] false).1 = ⟨.ok 0, []⟩ := by
  have h := c3_amended "g1" [] [] aChildCmd bChildCmd (fun _ => .success) false
  exact ⟨h.1.2, h.2 .success⟩

/-- C9, counterexample: the child a's callable fails while the GROUP is
invoked with isolation requested; the failure is not converted to exit
code 1 but escapes, because `Group.invoke` delegates with the default
`isolated=False`. -/
theorem c9_counterexample :
    (Grp.invoke abGroup .success (fun _ => .failure) ["a", "x"] true).1.result
      = .error .callableError := by decide

/-- C9, amended: isolation applies only to the node `invoke` was called
on.  A leaf invoked with isolation converts its callable's failure to exit
code 1; without isolation the failure escapes and the runner's
`except CleaException` does not catch it.  A group never forwards the
isolation flag to a matched child, so the child callable's failure
escapes even when isolation was requested at the group. -/
theorem c9_amended :
    (∀ (c : Cmd) (argv : List String) (a : List Value)
        (k : List (String × Value)),
        (commandParse c.parserState argv).1 = .ok ⟨a, k, false, false⟩ →
        (Cmd.invoke c .failure argv true).1 = ⟨.ok 1, [c.name]⟩
          ∧ (Cmd.invoke c .failure argv false).1 = ⟨.error .callableError, [c.name]⟩
          ∧ runnerRun (Cmd.invoke c .failure argv false).1 = .uncaught .callableError)
  ∧ (∀ (gname : String) (store : List Param) (flags : List (String × Nat))
        (A : Cmd) (calls : String → CallResult) (iso : Bool),
        A.argsIds = [] → calls "a" = .failure →
        (Grp.invoke ⟨gname, store, [], flags, [("a", A)], false⟩ .success calls
          ["a"] iso).1.result = .error .callableError) := by
  constructor
  · intro c argv a k hp
    cases hcp : commandParse c.parserState argv with
    | mk res st =>
      rw [hcp] at hp
      simp only at hp
      subst hp
      refine ⟨?_, ?_, ?_⟩
      · unfold Cmd.invoke
        rw [hcp]
        simp [invokeCore]
      · unfold Cmd.invoke
        rw [hcp]
        simp [invokeCore]
      · unfold Cmd.invoke
        rw [hcp]
        simp [invokeCore, runnerRun]
  · intro gname store flags A calls iso hA hcall
    unfold Grp.invoke groupParse groupLoop
    simp [dictGet, List.find?, invokeCore, hcall, Cmd.invoke, Cmd.parserState,
      commandParse, commandLoop, hA]

/-- C9, witness: the leaf conjunct at the concrete child command. -/
theorem c9_witness :
    (Cmd.invoke aChildCmd .failure ["x"] true).1 = ⟨.ok 1, ["a"]⟩
      ∧ (Cmd.invoke aChildCmd .failure ["x"] false).1
        = ⟨.error .callableError, ["a"]⟩ := by
  have h := c9_amended.1 aChildCmd ["x"] [.str "x"] [] (by decide)
  exact ⟨h.1, h.2.1⟩

end Clea
